import Mathlib

/-!
# liche: resolving and checking the references of a document

A shallow embedding of `url_checker.go` (type `urlChecker` with `resolveURL`,
`Check` and `CheckMany`) and of the library functions it calls, followed by
theorems about the embedded code.

Conventions.

* A Go `string` is a sequence of bytes; it is modelled as `List Char`, one
  character per byte.  `u[7:]` is `u.drop 7`.
* A Go `error` is a value of the inductive type `error`; the `nil` error is
  `none` in `Option error`.
* Functions with several results return a tuple, in the order of the source.
* The Go standard library (`strings`, `path`, `path/filepath`, `net/url`) is
  not part of the repository.  The functions the checker calls are modelled
  after their Go implementation (Unix flavour for `path/filepath`), under the
  names they have in Go.
* The file system, the HTTP client and the table of HTTP status texts are
  supplied by a record `Env` of oracles; each call made to them is recorded in
  the list of `Effect`s that `Check` returns next to its result.
-/

namespace Liche

/-- A Go string: its bytes, in order, one character per byte. -/
abbrev Str := List Char

deriving instance DecidableEq for Except

/-! ## Package `strings` -/

namespace strings

/-- Go `strings.HasPrefix(s, p)`. -/
def HasPrefix (s p : Str) : Bool := p.isPrefixOf s

/-- Go `strings.HasSuffix(s, p)`. -/
def HasSuffix (s p : Str) : Bool := p.isSuffixOf s

/-- Go `strings.Count(s, sep)` for a one-byte separator. -/
def Count (s : Str) (sep : Char) : Nat := s.count sep

/-- Go `strings.Contains(s, sep)` for a one-byte separator. -/
def Contains (s : Str) (sep : Char) : Bool := s.contains sep

/-- Go `strings.Cut(s, sep)` for a one-byte separator: the text before the
first `sep`, the text after it, and whether `sep` occurs. -/
def Cut (s : Str) (sep : Char) : Str × Str × Bool :=
  if s.contains sep then
    (s.takeWhile (fun c => c != sep), (s.dropWhile (fun c => c != sep)).drop 1, true)
  else (s, [], false)

/-- Go `strings.Index(s, sub)`: the index of the first occurrence of `sub`
in `s`, or `none` (Go: `-1`). -/
def Index : Str → Str → Option Nat
  | [], sub => if sub = [] then some 0 else none
  | c :: s, sub =>
    if sub.isPrefixOf (c :: s) then some 0 else (Index s sub).map (fun i => i + 1)

/-- Go `strings.LastIndex(s, sep)` for a one-byte separator: the index of
the last occurrence, or `none` (Go: `-1`). -/
def LastIndex : Str → Char → Option Nat
  | [], _ => none
  | c :: s, sep =>
    match LastIndex s sep with
    | some i => some (i + 1)
    | none => if c = sep then some 0 else none

/-- Go `strings.ToLower(s)` on ASCII text. -/
def ToLower (s : Str) : Str := s.map Char.toLower

end strings

/-! ## Package `path` -/

namespace path

/-- Go `path.IsAbs(path)`: `len(path) > 0 && path[0] == '/'`. -/
def IsAbs (path : Str) : Bool :=
  match path with
  | [] => false
  | c :: _ => c == '/'

/-- The `..` case of `Clean` when it can backtrack, on the reversed output
buffer: `out.w--`, then `out.w--` as long as `out.w > dotdot` and the byte at
`out.w` (the one just given up) is not a slash. -/
def backtrack (dotdot : Nat) : Str → Str
  | [] => []
  | c :: out => if dotdot < out.length ∧ c ≠ '/' then backtrack dotdot out else out

/-- The main loop of Go `path.Clean`.  `rest` is `path[r:]`, `out` is the
output buffer reversed, `dotdot` is the index in the buffer where `..` must
stop.  Each turn of the loop consumes at least one byte of `rest`, so a fuel
of `len(path)` turns is enough. -/
def cleanLoop (rooted : Bool) : Nat → Str → Str → Nat → Str
  | 0, _, out, _ => out
  | fuel + 1, rest, out, dotdot =>
    if rest = [] then out
    else if rest.head? = some '/' then
      -- empty path element
      cleanLoop rooted fuel (rest.drop 1) out dotdot
    else if rest.head? = some '.' ∧ (rest.length = 1 ∨ rest.get? 1 = some '/') then
      -- . element
      cleanLoop rooted fuel (rest.drop 1) out dotdot
    else if rest.head? = some '.' ∧ rest.get? 1 = some '.' ∧
        (rest.length = 2 ∨ rest.get? 2 = some '/') then
      -- .. element: remove to last /
      if dotdot < out.length then
        cleanLoop rooted fuel (rest.drop 2) (backtrack dotdot out) dotdot
      else if !rooted then
        let out1 := if 0 < out.length then '/' :: out else out
        let out2 := '.' :: '.' :: out1
        cleanLoop rooted fuel (rest.drop 2) out2 out2.length
      else
        cleanLoop rooted fuel (rest.drop 2) out dotdot
    else
      -- real path element: add slash if needed, copy element
      let out1 :=
        if (rooted && out.length != 1) || (!rooted && out.length != 0) then '/' :: out else out
      cleanLoop rooted fuel (rest.dropWhile (fun c => c != '/'))
        ((rest.takeWhile (fun c => c != '/')).reverse ++ out1) dotdot

/-- Go `path.Clean(path)`: the shortest path name equivalent to `path` by
purely lexical processing. -/
def Clean (path : Str) : Str :=
  if path = [] then ['.']
  else
    let rooted := path.head? = some '/'
    let out := if rooted then cleanLoop true path.length (path.drop 1) ['/'] 1
               else cleanLoop false path.length path [] 0
    if out.length = 0 then ['.'] else out.reverse

/-- Go `strings.Join(elem, "/")`. -/
def joinSlash : List Str → Str
  | [] => []
  | [e] => e
  | e :: es => e ++ '/' :: joinSlash es

/-- Go `path.Join(elem...)`: the elements from the first non-empty one on,
joined with slashes, and cleaned; the empty string when all are empty. -/
def Join : List Str → Str
  | [] => []
  | e :: es => if e ≠ [] then Clean (joinSlash (e :: es)) else Join es

end path

/-! ## Package `path/filepath` (Unix) -/

namespace filepath

/-- Go `filepath.Dir(name)` on Unix, where the volume name is empty, the
separator is the slash and `filepath.Clean` is `path.Clean`: drop the final
element (the bytes after the last slash) and clean what is left. -/
def Dir (name : Str) : Str :=
  path.Clean (name.reverse.dropWhile (fun c => c != '/')).reverse

end filepath

/-! ## Package `net/url` -/

namespace url

/-- The errors raised inside `net/url`. -/
inductive Err where
  /-- `EscapeError(s)`: invalid URL escape `s`. -/
  | EscapeError (s : Str)
  /-- `InvalidHostError(s)`: invalid character `s` in host name. -/
  | InvalidHostError (s : Str)
  /-- `errors.New("net/url: invalid control character in URL")`. -/
  | invalidControlCharacter
  /-- `errors.New("missing protocol scheme")`. -/
  | missingProtocolScheme
  /-- `errors.New("first path segment in URL cannot contain colon")`. -/
  | firstPathSegmentColon
  /-- `errors.New("missing ']' in host")`. -/
  | missingBracket
  /-- `fmt.Errorf("invalid port %q after host", colonPort)`. -/
  | invalidPort (colonPort : Str)
  /-- `errors.New("net/url: invalid userinfo")`. -/
  | invalidUserinfo
  deriving DecidableEq, Repr

/-- Go `url.Error`: the operation, the URL and the error it met. -/
structure Error where
  Op : Str
  URL : Str
  Err : Err
  deriving DecidableEq, Repr

/-- Go `url.Userinfo`: a user name and an optional password. -/
structure Userinfo where
  username : Str
  password : Str
  passwordSet : Bool
  deriving DecidableEq, Repr

/-- Go `url.URL`, the parsed form of a URL.  The hints `RawPath`,
`RawFragment` and `OmitHost` are left out: they are computed after every
check that can fail, and never read by the checker. -/
structure URL where
  Scheme : Str := []
  Opaque : Str := []
  User : Option Userinfo := none
  Host : Str := []
  Path : Str := []
  ForceQuery : Bool := false
  RawQuery : Str := []
  Fragment : Str := []
  deriving DecidableEq, Repr

/-- The escaping modes of `net/url`. -/
inductive encoding where
  | encodePath
  | encodePathSegment
  | encodeHost
  | encodeZone
  | encodeUserPassword
  | encodeQueryComponent
  | encodeFragment
  deriving DecidableEq, Repr

/-- Go `ishex(c)`. -/
def ishex (c : Char) : Bool :=
  ('0' ≤ c ∧ c ≤ '9') ∨ ('a' ≤ c ∧ c ≤ 'f') ∨ ('A' ≤ c ∧ c ≤ 'F')

/-- Go `unhex(c)`. -/
def unhex (c : Char) : Nat :=
  if '0' ≤ c ∧ c ≤ '9' then c.toNat - '0'.toNat
  else if 'a' ≤ c ∧ c ≤ 'f' then c.toNat - 'a'.toNat + 10
  else if 'A' ≤ c ∧ c ≤ 'F' then c.toNat - 'A'.toNat + 10
  else 0

/-- Go `shouldEscape(c, encodeHost)`: letters, digits, the sub-delimiters
and `: [ ] < > "` that a host may hold, and the marks `- _ . ~` need no
escape; every other byte does. -/
def shouldEscapeHost (c : Char) : Bool :=
  if ('a' ≤ c ∧ c ≤ 'z') ∨ ('A' ≤ c ∧ c ≤ 'Z') ∨ ('0' ≤ c ∧ c ≤ '9') then false
  else if c ∈ ['!', '$', '&', '\'', '(', ')', '*', '+', ',', ';', '=', ':', '[', ']',
      '<', '>', '"'] then false
  else if c ∈ ['-', '_', '.', '~'] then false
  else true

/-- The byte that the escape `%ab` stands for: `unhex(a)<<4 | unhex(b)`. -/
def unhexByte (a b : Char) : Char := Char.ofNat (16 * unhex a + unhex b)

/-- First loop of Go `unescape(s, mode)`: check that every `%` starts a
well-formed escape, and in a host or zone that escapes and plain bytes are
among those allowed there.  `none` when the text passes. -/
def unescapeCheck (mode : encoding) : Str → Option Err
  | [] => none
  | c :: s =>
    if c = '%' then
      match s with
      | a :: b :: t =>
        if !ishex a || !ishex b then some (Err.EscapeError [c, a, b])
        else if mode = encoding.encodeHost ∧ unhex a < 8 ∧ [c, a, b] ≠ ['%', '2', '5'] then
          some (Err.EscapeError [c, a, b])
        else if mode = encoding.encodeZone ∧ [c, a, b] ≠ ['%', '2', '5'] ∧
            unhexByte a b ≠ ' ' ∧ shouldEscapeHost (unhexByte a b) then
          some (Err.EscapeError [c, a, b])
        else unescapeCheck mode t
      | _ => some (Err.EscapeError ((c :: s).take 3))
    else if c = '+' then unescapeCheck mode s
    else if (mode = encoding.encodeHost ∨ mode = encoding.encodeZone) ∧ c.toNat < 128 ∧
        shouldEscapeHost c then
      some (Err.InvalidHostError [c])
    else unescapeCheck mode s

/-- Second loop of Go `unescape(s, mode)`, on a text that passed the first:
replace every escape by its byte, and in a query component `+` by a space. -/
def unescapeDecode (mode : encoding) : Str → Str
  | [] => []
  | c :: s =>
    if c = '%' then
      match s with
      | a :: b :: t => unhexByte a b :: unescapeDecode mode t
      | _ => []
    else if c = '+' then
      (if mode = encoding.encodeQueryComponent then ' ' else '+') :: unescapeDecode mode s
    else c :: unescapeDecode mode s

/-- Go `unescape(s, mode)`. -/
def unescape (s : Str) (mode : encoding) : Except Err Str :=
  match unescapeCheck mode s with
  | some e => .error e
  | none => .ok (unescapeDecode mode s)

/-- Go `url.PathUnescape(s)`: `unescape(s, encodePathSegment)`. -/
def PathUnescape (s : Str) : Except Err Str := unescape s encoding.encodePathSegment

/-- Go `stringContainsCTLByte(s)`: some byte is below `0x20` or is `0x7f`. -/
def stringContainsCTLByte (s : Str) : Bool := s.any (fun b => b.toNat < 32 || b.toNat == 127)

/-- The loop of Go `getScheme`: `i` is the index of the next byte, `rest` the
bytes from it on. -/
def getSchemeLoop (rawURL : Str) : Nat → Str → Except Err (Str × Str)
  | _, [] => .ok ([], rawURL)
  | i, c :: rest =>
    if ('a' ≤ c ∧ c ≤ 'z') ∨ ('A' ≤ c ∧ c ≤ 'Z') then getSchemeLoop rawURL (i + 1) rest
    else if ('0' ≤ c ∧ c ≤ '9') ∨ c = '+' ∨ c = '-' ∨ c = '.' then
      if i = 0 then .ok ([], rawURL) else getSchemeLoop rawURL (i + 1) rest
    else if c = ':' then
      if i = 0 then .error Err.missingProtocolScheme else .ok (rawURL.take i, rest)
    else .ok ([], rawURL)

/-- Go `getScheme(rawURL)`: the scheme (possibly empty) and what follows its
colon. -/
def getScheme (rawURL : Str) : Except Err (Str × Str) := getSchemeLoop rawURL 0 rawURL

/-- Go `validOptionalPort(port)`: empty, or a colon followed by digits. -/
def validOptionalPort (port : Str) : Bool :=
  match port with
  | [] => true
  | c :: digits => c == ':' && digits.all (fun b => decide ('0' ≤ b ∧ b ≤ '9'))

/-- Go `validUserinfo(s)`. -/
def validUserinfo (s : Str) : Bool :=
  s.all (fun r =>
    decide (('A' ≤ r ∧ r ≤ 'Z') ∨ ('a' ≤ r ∧ r ≤ 'z') ∨ ('0' ≤ r ∧ r ≤ '9')) ||
    decide (r ∈ ['-', '.', '_', ':', '~', '!', '$', '&', '\'', '(', ')', '*', '+', ',', ';',
      '=', '%', '@']))

/-- Go `parseHost(host)`. -/
def parseHost (host : Str) : Except Err Str :=
  if strings.HasPrefix host ['['] then
    -- an IP literal such as "[fe80::1]", "[fe80::1%25en0]", "[fe80::1]:80"
    match strings.LastIndex host ']' with
    | none => .error Err.missingBracket
    | some i =>
      if !validOptionalPort (host.drop (i + 1)) then .error (Err.invalidPort (host.drop (i + 1)))
      else
        match strings.Index (host.take i) ['%', '2', '5'] with
        | some zone => do
          let host1 ← unescape (host.take zone) encoding.encodeHost
          let host2 ← unescape ((host.take i).drop zone) encoding.encodeZone
          let host3 ← unescape (host.drop i) encoding.encodeHost
          pure (host1 ++ host2 ++ host3)
        | none => unescape host encoding.encodeHost
  else
    match strings.LastIndex host ':' with
    | some i =>
      if !validOptionalPort (host.drop i) then .error (Err.invalidPort (host.drop i))
      else unescape host encoding.encodeHost
    | none => unescape host encoding.encodeHost

/-- Go `parseAuthority(authority)`: the user information and the host of
`[userinfo@]host`. -/
def parseAuthority (authority : Str) : Except Err (Option Userinfo × Str) :=
  match strings.LastIndex authority '@' with
  | none => do
    let host ← parseHost authority
    pure (none, host)
  | some i => do
    let host ← parseHost (authority.drop (i + 1))
    let userinfo := authority.take i
    if !validUserinfo userinfo then .error Err.invalidUserinfo
    else if !strings.Contains userinfo ':' then do
      let username ← unescape userinfo encoding.encodeUserPassword
      pure (some ⟨username, [], false⟩, host)
    else do
      let username ← unescape (strings.Cut userinfo ':').1 encoding.encodeUserPassword
      let password ← unescape (strings.Cut userinfo ':').2.1 encoding.encodeUserPassword
      pure (some ⟨username, password, true⟩, host)

/-- Go `parse(rawURL, false)`: parse a URL that has no fragment. -/
def parse (rawURL : Str) : Except Err URL :=
  if stringContainsCTLByte rawURL then .error Err.invalidControlCharacter
  else if rawURL = ['*'] then .ok { Path := ['*'] }
  else do
    -- split off a possible leading "http:", "mailto:", ...
    let (scheme, rest0) ← getScheme rawURL
    let Scheme := strings.ToLower scheme
    let (rest, ForceQuery, RawQuery) :=
      if strings.HasSuffix rest0 ['?'] ∧ strings.Count rest0 '?' = 1 then
        (rest0.take (rest0.length - 1), true, [])
      else ((strings.Cut rest0 '?').1, false, (strings.Cut rest0 '?').2.1)
    if !strings.HasPrefix rest ['/'] ∧ Scheme ≠ [] then
      -- rootless paths are opaque
      .ok { Scheme := Scheme, Opaque := rest, ForceQuery := ForceQuery, RawQuery := RawQuery }
    else if !strings.HasPrefix rest ['/'] ∧ strings.Contains (strings.Cut rest '/').1 ':' then
      .error Err.firstPathSegmentColon
    else if (Scheme ≠ [] ∨ !strings.HasPrefix rest ['/', '/', '/']) ∧
        strings.HasPrefix rest ['/', '/'] then do
      let authority := (rest.drop 2).takeWhile (fun c => c != '/')
      let rest1 := (rest.drop 2).dropWhile (fun c => c != '/')
      let (User, Host) ← parseAuthority authority
      let Path ← unescape rest1 encoding.encodePath
      pure { Scheme := Scheme, User := User, Host := Host, Path := Path,
             ForceQuery := ForceQuery, RawQuery := RawQuery }
    else do
      let Path ← unescape rest encoding.encodePath
      pure { Scheme := Scheme, Path := Path, ForceQuery := ForceQuery, RawQuery := RawQuery }

/-- Go `url.Parse(rawURL)`: cut off the fragment, parse what stands before
it, then decode the fragment.  Errors come wrapped in a `url.Error`. -/
def Parse (rawURL : Str) : Except Error URL :=
  let u := (strings.Cut rawURL '#').1
  let frag := (strings.Cut rawURL '#').2.1
  match parse u with
  | .error err => .error ⟨"parse".toList, u, err⟩
  | .ok uu =>
    if frag = [] then .ok uu
    else
      match unescape frag encoding.encodeFragment with
      | .error err => .error ⟨"parse".toList, rawURL, err⟩
      | .ok Fragment => .ok { uu with Fragment := Fragment }

end url

/-! ## The checker (`url_checker.go`) -/

/-- A Go `error` value met by the checker. -/
inductive error where
  /-- A `*url.Error`, returned by `url.Parse`. -/
  | urlError (e : url.Error)
  /-- A bare error of `net/url`, returned by `url.PathUnescape`. -/
  | urlErr (e : url.Err)
  /-- An error made by `fmt.Errorf` or `errors.New` with this message. -/
  | errorString (s : Str)
  /-- The package variable `errSkipped = errors.New("skipped as instructed")`,
  which callers compare by identity. -/
  | errSkipped
  /-- A `*fasthttp.ErrSmallBuffer`: the response header does not fit the
  read buffer. -/
  | ErrSmallBuffer (reason : Str)
  /-- Any other error of `os.Stat` or of the HTTP client. -/
  | external (detail : Str)
  deriving DecidableEq, Repr

/-- Go `var errSkipped = errors.New("skipped as instructed")`. -/
def errSkipped : error := error.errSkipped

/-- A compiled `*regexp.Regexp`, known by what `MatchString` answers. -/
structure Regexp where
  MatchString : Str → Bool

/-- Modelled from the spec: the concurrency limiter, type `semaphore` of this
repository, whose source file is not among the sources read.  A token pool of
fixed capacity; the number of slots held is the state `Request` and `Release`
act on (see `Request` and `Release` below). -/
structure semaphore where
  capacity : Nat
  deriving DecidableEq, Repr

/-- Modelled from the spec: `newSemaphore(n)`, a limiter of capacity `n`. -/
def newSemaphore (n : Nat) : semaphore := ⟨n⟩

/-- Modelled from the spec: `Acquire` (`semaphore.Request` in the code).  It
takes one slot when fewer than `capacity` are held; `none` stands for a caller
that blocks because none is free. -/
def semaphore.Request (s : semaphore) (held : Nat) : Option Nat :=
  if held < s.capacity then some (held + 1) else none

/-- Modelled from the spec: `Release`.  It returns one slot acquired before;
`none` stands for a release with no slot held, a caller error. -/
def semaphore.Release (_s : semaphore) (held : Nat) : Option Nat :=
  if 0 < held then some (held - 1) else none

/-- Go `type urlChecker struct`. -/
structure urlChecker where
  timeout : Int
  documentRoot : Str
  excludedPattern : Option Regexp
  semaphore : semaphore
  localOnly : Bool

/-- Go `newURLChecker(t, d, r, s, l)`. -/
def newURLChecker (t : Int) (d : Str) (r : Option Regexp) (s : semaphore) (l : Bool) :
    urlChecker := ⟨t, d, r, s, l⟩

/-- Go `urlChecker.resolveURL(u, f)`: the target of the reference `u` found
in the file `f`, whether it is a local file, and the error. -/
def urlChecker.resolveURL (c : urlChecker) (u f : Str) : Str × Bool × Option error :=
  match url.Parse u with
  | .error err => ([], false, some (error.urlError err))
  | .ok uu =>
    if uu.Scheme ≠ [] ∧ uu.Scheme ≠ "file".toList then (u, false, none)
    else
      -- the path is `uu.Path`, or for a file URL what follows "file://", decoded
      let p : Except error Str :=
        if uu.Scheme = "file".toList then
          if !strings.HasPrefix u "file://".toList then
            .error (error.errorString "wrong file URL syntax".toList)
          else
            match url.PathUnescape (u.drop 7) with
            | .error err => .error (error.urlErr err)
            | .ok p => .ok p
        else .ok uu.Path
      match p with
      | .error err => ([], false, some err)
      | .ok p =>
        if !path.IsAbs uu.Path then (path.Join [filepath.Dir f, p], true, none)
        else if c.documentRoot = [] then
          ([], false, some (error.errorString "document root directory is not specified".toList))
        else (path.Join [c.documentRoot, p], true, none)

/-- The outside world as `Check` sees it. -/
structure Env where
  /-- The error of `os.Stat(name)`. -/
  Stat : Str → Option error
  /-- The status code and the error of `fasthttp.Get(nil, u)`. -/
  Get : Str → Int × Option error
  /-- The status code and the error of `fasthttp.GetTimeout(nil, u, t)`. -/
  GetTimeout : Str → Int → Int × Option error
  /-- Go `http.StatusText(code)`. -/
  StatusText : Int → Str

/-- A call that `Check` makes to the outside world or to the limiter. -/
inductive Effect where
  | Stat (name : Str)
  | Request
  | Get (u : Str)
  | GetTimeout (u : Str) (t : Int)
  | Release
  deriving DecidableEq, Repr

/-- Go `http.StatusBadRequest`. -/
def StatusBadRequest : Int := 400

/-- The decimal digits of a natural number, as `%d` prints them. -/
def fmtNat (n : Nat) : Str := (Nat.toDigits 10 n)

/-- The verb `%d` of `fmt` on an `int`. -/
def fmtInt (n : Int) : Str :=
  if n < 0 then '-' :: fmtNat n.natAbs else fmtNat n.natAbs

/-- Go `urlChecker.Check(u, f)`: the error of the check (`none` for `nil`)
and the calls made, in order.  The deferred `Release` runs when the function
returns, after the fetch. -/
def urlChecker.Check (c : urlChecker) (env : Env) (u f : Str) : Option error × List Effect :=
  match c.resolveURL u f with
  | (_, _, some err) => (some err, [])
  | (u, isLocal, none) =>
    if (match c.excludedPattern with
        | some r => r.MatchString u
        | none => false) then (none, [])
    else if isLocal then (env.Stat u, [Effect.Stat u])
    else if c.localOnly then (some errSkipped, [])
    else
      let fetched : (Int × Option error) × Effect :=
        if c.timeout = 0 then (env.Get u, Effect.Get u)
        else (env.GetTimeout u c.timeout, Effect.GetTimeout u c.timeout)
      let sc := fetched.1.1
      let err := fetched.1.2
      let calls := [Effect.Request, fetched.2, Effect.Release]
      if sc ≥ StatusBadRequest then
        (some (error.errorString
          (env.StatusText sc ++ " (HTTP error ".toList ++ fmtInt sc ++ ")".toList)), calls)
      else
        -- errors about a small buffer for the headers are ignored
        match err with
        | some (error.ErrSmallBuffer _) => (none, calls)
        | _ => (err, calls)

/-- The state of the limiter after the calls of a run, starting with `held`
slots taken; `none` when a `Request` finds no free slot or a `Release` finds
none held. -/
def runLimiter (s : semaphore) : List Effect → Nat → Option Nat
  | [], held => some held
  | Effect.Request :: es, held => (s.Request held).bind (runLimiter s es)
  | Effect.Release :: es, held => (s.Release held).bind (runLimiter s es)
  | _ :: es, held => runLimiter s es held

/-- The limiter operations among the calls of a run. -/
def limiterOps (es : List Effect) : List Effect :=
  es.filter (fun e => e = Effect.Request ∨ e = Effect.Release)

/-! ## `CheckMany`: one goroutine per reference

`CheckMany` starts a goroutine for every reference and waits for all of them
before it closes the result channel.  Its runs are the interleavings of the
steps of its body and of the goroutines; a run is given by a schedule, the
list of who moves at each step.  A send on `rc` is one step, taken when the
send completes (the channel has room, or its reader takes the value). -/

/-- Modelled from the spec: `type urlResult struct`, whose declaration is not
among the sources read; the spec's CheckResult `{reference, outcome}`, with
the two fields `CheckMany` fills in this order and the tests read as `r.url`
and `r.err`. -/
structure urlResult where
  url : Str
  err : Option error
  deriving DecidableEq, Repr

/-- Where the goroutine `go func(s string) { ... }(s)` stands. -/
inductive Task where
  /-- Started; next it runs `rc <- urlResult{s, c.Check(s, f)}`. -/
  | sending (s : Str)
  /-- Its result is written; next it runs `wg.Done()`. -/
  | finishing (s : Str)
  /-- Ended. -/
  | done (s : Str)
  deriving DecidableEq, Repr

/-- Where the body of `CheckMany` stands. -/
inductive Main where
  /-- At the head of the `for` loop, with these references left; with none
  left, at `wg.Wait()`. -/
  | loop (us : List Str)
  /-- After `wg.Add(1)`, at the `go` statement for `s`. -/
  | spawn (s : Str) (us : List Str)
  /-- After `wg.Wait()`, at `close(rc)`. -/
  | close
  /-- Returned. -/
  | returned
  deriving DecidableEq, Repr

/-- The state of a run of `CheckMany`. -/
structure State where
  main : Main
  /-- The goroutines started so far, in the order of their start. -/
  tasks : List Task
  /-- The counter of the wait group `wg`. -/
  wg : Nat
  /-- The entries written to `rc` so far, oldest first. -/
  rc : List urlResult
  /-- Whether `rc` is closed. -/
  closed : Bool
  /-- Whether the program has panicked (a send on a closed channel, the
  close of a closed channel, a negative wait group counter). -/
  panicked : Bool
  deriving DecidableEq, Repr

/-- Who moves: the body of `CheckMany`, or the goroutine started `i`-th. -/
inductive Turn where
  | main
  | task (i : Nat)
  deriving DecidableEq, Repr

/-- One step of a run; `check s` is the result of `c.Check(s, f)`.  `none`:
the one asked to move cannot (it has ended, waits, or does not exist). -/
def step (check : Str → Option error) (st : State) : Turn → Option State
  | Turn.main =>
    if st.panicked then none
    else
      match st.main with
      | Main.loop (s :: us) => some { st with wg := st.wg + 1, main := Main.spawn s us }
      | Main.loop [] => if st.wg = 0 then some { st with main := Main.close } else none
      | Main.spawn s us =>
        some { st with tasks := st.tasks ++ [Task.sending s], main := Main.loop us }
      | Main.close =>
        if st.closed then some { st with panicked := true }
        else some { st with closed := true, main := Main.returned }
      | Main.returned => none
  | Turn.task i =>
    if st.panicked then none
    else
      match st.tasks.get? i with
      | some (Task.sending s) =>
        if st.closed then some { st with panicked := true }
        else some { st with rc := st.rc ++ [⟨s, check s⟩],
                            tasks := st.tasks.set i (Task.finishing s) }
      | some (Task.finishing s) =>
        if st.wg = 0 then some { st with panicked := true }
        else some { st with wg := st.wg - 1, tasks := st.tasks.set i (Task.done s) }
      | _ => none

/-- The steps of a schedule, one after the other. -/
def run (check : Str → Option error) : List Turn → State → Option State
  | [], st => some st
  | t :: ts, st => (step check st t).bind (run check ts)

/-- The state in which `CheckMany(us, f, rc)` is entered: `rc` open and
empty, the wait group at zero, no goroutine. -/
def State.init (us : List Str) : State :=
  { main := Main.loop us, tasks := [], wg := 0, rc := [], closed := false, panicked := false }

/-- Go `urlChecker.CheckMany(us, f, rc)` under the schedule `sched`: the state
reached, or `none` when the schedule asks for a step that cannot be taken. -/
def urlChecker.CheckMany (c : urlChecker) (env : Env) (us : List Str) (f : Str)
    (sched : List Turn) : Option State :=
  run (fun s => (c.Check env s f).1) sched (State.init us)

/-- The entries a run of `CheckMany` owes: one per reference, with the
result of its check. -/
def urlChecker.results (c : urlChecker) (env : Env) (us : List Str) (f : Str) :
    List urlResult :=
  us.map (fun s => ⟨s, (c.Check env s f).1⟩)

/-- The references `CheckMany` has not started a goroutine for yet. -/
def Main.left : Main → List Str
  | Main.loop us => us
  | Main.spawn s us => s :: us
  | _ => []

/-- The reference of a goroutine that has not written its result yet. -/
def Task.unsent : Task → Option Str
  | Task.sending s => some s
  | _ => none

/-- The number of steps a goroutine still has to take. -/
def Task.stepsLeft : Task → Nat
  | Task.sending _ => 2
  | Task.finishing _ => 1
  | Task.done _ => 0

/-- One for a goroutine that has not called `wg.Done()` yet. -/
def Task.live : Task → Nat
  | Task.done _ => 0
  | _ => 1

/-- The number of steps the body of `CheckMany` still has to take. -/
def Main.stepsLeft : Main → Nat
  | Main.loop us => 2 * us.length + 2
  | Main.spawn _ us => 2 * us.length + 3
  | Main.close => 1
  | Main.returned => 0

/-- The number of steps left in a run: four per reference (`wg.Add`, `go`,
the send, `wg.Done`), then `wg.Wait` and `close`. -/
def State.stepsLeft (st : State) : Nat :=
  st.main.stepsLeft + 2 * st.main.left.length + (st.tasks.map Task.stepsLeft).sum

/-- One at the `go` statement, where `wg.Add(1)` has run for a goroutine that
is not started yet; zero elsewhere. -/
def Main.added : Main → Nat
  | Main.spawn _ _ => 1
  | _ => 0

/-- What holds in every state of a run of `CheckMany` over the references
`us`, where `check s` is the result of `c.Check(s, f)`. -/
structure Inv (check : Str → Option error) (us : List Str) (st : State) : Prop where
  /-- The program has not panicked. -/
  sound : st.panicked = false
  /-- The wait group counts the goroutines that have not called `wg.Done()`,
  and the one about to be started. -/
  counter : st.wg = (st.tasks.map Task.live).sum + st.main.added
  /-- Past `wg.Wait()` the counter is zero. -/
  waited : st.main = Main.close ∨ st.main = Main.returned → st.wg = 0
  /-- The channel is closed exactly when `CheckMany` has returned. -/
  closing : st.closed = true ↔ st.main = Main.returned
  /-- Every reference has its goroutine or is still to come in the loop. -/
  started : st.tasks.length + st.main.left.length = us.length
  /-- The entries written, with those of the goroutines that have not sent
  yet and of the references still to come, are the entries owed. -/
  owed : (st.rc ++ ((st.tasks.filterMap Task.unsent) ++ st.main.left).map
      (fun s => (⟨s, check s⟩ : urlResult))).Perm (us.map (fun s => ⟨s, check s⟩))

/-! ## Sample data -/

/-- A world without files or network: `os.Stat` and every fetch fail. -/
def Env.offline : Env where
  Stat := fun _ => some (error.external "no such file or directory".toList)
  Get := fun _ => (0, some (error.external "no such host".toList))
  GetTimeout := fun _ _ => (0, some (error.external "no such host".toList))
  StatusText := fun _ => []

/-- A world where every file exists and every fetch answers with the given
status code and error. -/
def Env.answering (sc : Int) (err : Option error) : Env where
  Stat := fun _ => none
  Get := fun _ => (sc, err)
  GetTimeout := fun _ _ => (sc, err)
  StatusText := fun code => if code = 404 then "Not Found".toList else []

/-- A pattern that matches one text only. -/
def Regexp.exactly (t : Str) : Regexp := ⟨fun s => s == t⟩

/-! ## Theorems: the library model -/

/-- The loop of `path.Clean` ends because its input is used up, not its
fuel: any two amounts of fuel that cover the bytes left give the same
result.  `Clean` passes `len(path)`. -/
theorem cleanLoop_fuel (rooted : Bool) :
    ∀ (n m : Nat) (rest out : Str) (dotdot : Nat), rest.length ≤ n → rest.length ≤ m →
      path.cleanLoop rooted n rest out dotdot = path.cleanLoop rooted m rest out dotdot := by
  intro n
  induction n with
  | zero =>
    intro m rest out dotdot hn _
    have hnil : rest = [] := List.length_eq_zero.mp (by omega)
    subst hnil
    cases m <;> simp [path.cleanLoop]
  | succ n ih =>
    intro m rest out dotdot hn hm
    cases m with
    | zero =>
      have hnil : rest = [] := List.length_eq_zero.mp (by omega)
      subst hnil
      simp [path.cleanLoop]
    | succ m =>
      cases rest with
      | nil => simp [path.cleanLoop]
      | cons c r =>
        simp only [List.length_cons] at hn hm
        have h1 : (List.drop 1 (c :: r)).length ≤ n ∧ (List.drop 1 (c :: r)).length ≤ m := by
          simp only [List.drop_succ_cons, List.drop_zero]
          omega
        have h2 : (List.drop 2 (c :: r)).length ≤ n ∧ (List.drop 2 (c :: r)).length ≤ m := by
          simp only [List.drop_succ_cons, List.length_drop]
          omega
        have h3 : c ≠ '/' →
            ((c :: r).dropWhile (fun c => c != '/')).length ≤ n ∧
            ((c :: r).dropWhile (fun c => c != '/')).length ≤ m := by
          intro hc
          have hle := (List.dropWhile_sublist (fun c => c != '/') (l := r)).length_le
          simp only [List.dropWhile_cons, bne_iff_ne, ne_eq, hc, not_false_eq_true, if_true]
          omega
        unfold path.cleanLoop
        simp only [List.cons_ne_nil, if_false]
        by_cases hc : c = '/'
        · subst hc
          simp only [List.head?_cons, if_true]
          exact ih m _ _ _ h1.1 h1.2
        · split_ifs <;>
            first
            | exact ih m _ _ _ h1.1 h1.2
            | exact ih m _ _ _ h2.1 h2.2
            | exact ih m _ _ _ (h3 hc).1 (h3 hc).2

/-! ## Theorems: `resolveURL` -/

/-- A reference without scheme or with the scheme `file` is resolved as a
local path: the result of `resolveURL` once the path `p` is known. -/
theorem resolveURL_local (c : urlChecker) (u f p : Str) (uu : url.URL)
    (hparse : url.Parse u = .ok uu)
    (hp : (uu.Scheme = [] ∧ p = uu.Path) ∨
      (uu.Scheme = "file".toList ∧ strings.HasPrefix u "file://".toList = true ∧
        url.PathUnescape (u.drop 7) = .ok p)) :
    c.resolveURL u f =
      if !path.IsAbs uu.Path then (path.Join [filepath.Dir f, p], true, none)
      else if c.documentRoot = [] then
        ([], false, some (error.errorString "document root directory is not specified".toList))
      else (path.Join [c.documentRoot, p], true, none) := by
  unfold urlChecker.resolveURL
  rw [hparse]
  rcases hp with ⟨hs, rfl⟩ | ⟨hs, hpre, hun⟩
  · simp [hs]
  · simp only [String.toList] at hs hpre
    simp [hs, hpre, hun]

/-- C2: a reference that parses with an empty scheme and a path `p` that is
not absolute resolves, for every source file `f` and every document root, to
`path.Join(dir(f), p)` as a local target, without error. -/
theorem resolveURL_relative (c : urlChecker) (u f : Str) (uu : url.URL)
    (hparse : url.Parse u = .ok uu) (hscheme : uu.Scheme = [])
    (hrel : path.IsAbs uu.Path = false) :
    c.resolveURL u f = (path.Join [filepath.Dir f, uu.Path], true, none) := by
  rw [resolveURL_local c u f uu.Path uu hparse (Or.inl ⟨hscheme, rfl⟩)]
  simp [hrel]

/-- C2 at the references of the tests: `foo` found in `foo.md` resolves to
`foo`, without a document root and with the document root `foo`. -/
theorem resolveURL_relative_witness :
    (newURLChecker 0 [] none (newSemaphore 1024) false).resolveURL "foo".toList "foo.md".toList
        = ("foo".toList, true, none) ∧
    (newURLChecker 0 "foo".toList none (newSemaphore 1024) false).resolveURL "foo".toList
        "foo.md".toList = ("foo".toList, true, none) :=
  ⟨(resolveURL_relative _ "foo".toList "foo.md".toList { Path := "foo".toList }
      (by decide) rfl (by decide)).trans (by decide),
   (resolveURL_relative _ "foo".toList "foo.md".toList { Path := "foo".toList }
      (by decide) rfl (by decide)).trans (by decide)⟩

/-- C4: a reference that parses with a scheme that is neither empty nor
`file` resolves to itself as a remote target, without error, whatever the
checker (so whatever its document root) and the source file are. -/
theorem resolveURL_remote (u : Str) (uu : url.URL)
    (hparse : url.Parse u = .ok uu) (hne : uu.Scheme ≠ [])
    (hfile : uu.Scheme ≠ "file".toList) (c : urlChecker) (f : Str) :
    c.resolveURL u f = (u, false, none) := by
  unfold urlChecker.resolveURL
  rw [hparse]
  simp only [String.toList] at hfile
  simp [hne, hfile]

/-- C4 at the reference of the tests: `https://google.com` resolves to itself,
remote, with and without a document root. -/
theorem resolveURL_remote_witness :
    (newURLChecker 0 [] none (newSemaphore 1024) false).resolveURL
        "https://google.com".toList "foo.md".toList = ("https://google.com".toList, false, none) ∧
    (newURLChecker 0 "foo".toList none (newSemaphore 1024) false).resolveURL
        "https://google.com".toList "other/bar.md".toList
        = ("https://google.com".toList, false, none) :=
  ⟨resolveURL_remote "https://google.com".toList
      { Scheme := "https".toList, Host := "google.com".toList }
      (by decide) (by decide) (by decide) _ _,
   resolveURL_remote "https://google.com".toList
      { Scheme := "https".toList, Host := "google.com".toList }
      (by decide) (by decide) (by decide) _ _⟩

/-- C5: a reference that parses with the scheme `file` and does not begin
with the seven bytes `file://` fails with the error `wrong file URL syntax`
and an empty target, for every source file and every document root; the
error is not the one of a missing document root. -/
theorem resolveURL_malformed_file_url (c : urlChecker) (u f : Str) (uu : url.URL)
    (hparse : url.Parse u = .ok uu) (hscheme : uu.Scheme = "file".toList)
    (hpre : strings.HasPrefix u "file://".toList = false) :
    c.resolveURL u f = ([], false, some (error.errorString "wrong file URL syntax".toList)) ∧
    (c.resolveURL u f).2.2 ≠
      some (error.errorString "document root directory is not specified".toList) := by
  have h : c.resolveURL u f
      = ([], false, some (error.errorString "wrong file URL syntax".toList)) := by
    unfold urlChecker.resolveURL
    rw [hparse]
    simp only [String.toList] at hscheme hpre
    simp [hscheme, hpre]
  refine ⟨h, ?_⟩
  rw [h]
  decide

/-- C5 at `FILE://x` and `file:x`: the parser gives both the scheme `file`,
neither begins with `file://`, and both fail with `wrong file URL syntax`,
with an absolute path and no document root as well (`file:/x`). -/
theorem resolveURL_malformed_file_url_witness :
    (url.Parse "FILE://x".toList).map (fun uu => uu.Scheme) = .ok "file".toList ∧
    (newURLChecker 0 [] none (newSemaphore 1024) false).resolveURL "FILE://x".toList
        "foo.md".toList = ([], false, some (error.errorString "wrong file URL syntax".toList)) ∧
    (newURLChecker 0 "foo".toList none (newSemaphore 1024) false).resolveURL "file:x".toList
        "foo.md".toList = ([], false, some (error.errorString "wrong file URL syntax".toList)) ∧
    (newURLChecker 0 [] none (newSemaphore 1024) false).resolveURL "file:/x".toList
        "foo.md".toList = ([], false, some (error.errorString "wrong file URL syntax".toList)) :=
  ⟨by decide,
   (resolveURL_malformed_file_url _ "FILE://x".toList "foo.md".toList
      { Scheme := "file".toList, Host := "x".toList } (by decide) rfl (by decide)).1,
   (resolveURL_malformed_file_url _ "file:x".toList "foo.md".toList
      { Scheme := "file".toList, Opaque := "x".toList } (by decide) rfl (by decide)).1,
   (resolveURL_malformed_file_url _ "file:/x".toList "foo.md".toList
      { Scheme := "file".toList, Path := "/x".toList } (by decide) rfl (by decide)).1⟩

/-- C1: the reference `file://docs/README.md` begins with `file://`, parses
with the scheme `file`, and what follows `file://` decodes to the path
`docs/README.md`, which is not absolute; yet `resolveURL` does not resolve it
to `path.Join(dir(f), p)`, here `docs/README.md`: the parser reads `docs` as
the host and `/README.md` as the path, and the test of `resolveURL` looks at
that parsed path.  Without a document root the call fails, with the document
root `root` it gives `root/docs/README.md`. -/
theorem resolveURL_file_relative_path_diverges :
    strings.HasPrefix "file://docs/README.md".toList "file://".toList = true ∧
    (url.Parse "file://docs/README.md".toList).map (fun uu => (uu.Scheme, uu.Host, uu.Path))
      = .ok ("file".toList, "docs".toList, "/README.md".toList) ∧
    url.PathUnescape ("file://docs/README.md".toList.drop 7) = .ok "docs/README.md".toList ∧
    path.IsAbs "docs/README.md".toList = false ∧
    path.Join [filepath.Dir "README.md".toList, "docs/README.md".toList]
      = "docs/README.md".toList ∧
    (newURLChecker 0 [] none (newSemaphore 1024) false).resolveURL
        "file://docs/README.md".toList "README.md".toList
      = ([], false,
          some (error.errorString "document root directory is not specified".toList)) ∧
    (newURLChecker 0 "root".toList none (newSemaphore 1024) false).resolveURL
        "file://docs/README.md".toList "README.md".toList
      = ("root/docs/README.md".toList, true, none) := by
  decide

/-- C3: the reference `file://%2F@` parses with the scheme `file`, begins with
`file://`, and what follows decodes to the absolute path `/@`; yet without a
document root `resolveURL` succeeds, with the target `@`, and with the
document root `foo` it gives `@` again, not `path.Join("foo", "/@")`, which is
`foo/@`: the parser reads `%2F` as user information and leaves the parsed
path empty, and the test of `resolveURL` looks at that parsed path. -/
theorem resolveURL_file_absolute_path_diverges :
    strings.HasPrefix "file://%2F@".toList "file://".toList = true ∧
    (url.Parse "file://%2F@".toList).map (fun uu => (uu.Scheme, uu.Host, uu.Path))
      = .ok ("file".toList, [], []) ∧
    url.PathUnescape ("file://%2F@".toList.drop 7) = .ok "/@".toList ∧
    path.IsAbs "/@".toList = true ∧
    (newURLChecker 0 [] none (newSemaphore 1024) false).resolveURL
        "file://%2F@".toList "foo.md".toList = ("@".toList, true, none) ∧
    (newURLChecker 0 [] none (newSemaphore 1024) false).Check Env.offline
        "file://%2F@".toList "foo.md".toList
      = (some (error.external "no such file or directory".toList), [Effect.Stat "@".toList]) ∧
    path.Join ["foo".toList, "/@".toList] = "foo/@".toList ∧
    (newURLChecker 0 "foo".toList none (newSemaphore 1024) false).resolveURL
        "file://%2F@".toList "foo.md".toList = ("@".toList, true, none) := by
  decide

/-- A local reference whose parsed path is absolute, as is the path of every
absolute reference without scheme: without a document root the resolution
fails with an empty target and `Check` returns that error, with a document
root `D` the target is `path.Join(D, p)`. -/
theorem resolveURL_parsed_path_absolute (c : urlChecker) (u f p : Str) (uu : url.URL)
    (hparse : url.Parse u = .ok uu)
    (hp : (uu.Scheme = [] ∧ p = uu.Path) ∨
      (uu.Scheme = "file".toList ∧ strings.HasPrefix u "file://".toList = true ∧
        url.PathUnescape (u.drop 7) = .ok p))
    (habs : path.IsAbs uu.Path = true) :
    (c.documentRoot = [] →
      c.resolveURL u f = ([], false,
        some (error.errorString "document root directory is not specified".toList)) ∧
      ∀ env, (c.Check env u f).1 =
        some (error.errorString "document root directory is not specified".toList)) ∧
    (c.documentRoot ≠ [] → c.resolveURL u f = (path.Join [c.documentRoot, p], true, none)) := by
  have h := resolveURL_local c u f p uu hparse hp
  simp only [habs, Bool.not_true, Bool.false_eq_true, if_false] at h
  constructor
  · intro hroot
    rw [if_pos hroot] at h
    refine ⟨h, fun env => ?_⟩
    unfold urlChecker.Check
    rw [h]
  · intro hroot
    rw [if_neg hroot] at h
    exact h

/-- At the reference of the tests: `/foo` found in `foo.md` fails without a
document root, with an empty target, and resolves to `foo/foo` with the
document root `foo`. -/
theorem resolveURL_parsed_path_absolute_witness :
    (newURLChecker 0 [] none (newSemaphore 1024) false).resolveURL "/foo".toList "foo.md".toList
      = ([], false,
          some (error.errorString "document root directory is not specified".toList)) ∧
    (newURLChecker 0 "foo".toList none (newSemaphore 1024) false).resolveURL "/foo".toList
        "foo.md".toList = ("foo/foo".toList, true, none) :=
  ⟨((resolveURL_parsed_path_absolute _ "/foo".toList "foo.md".toList "/foo".toList
      { Path := "/foo".toList } (by decide) (Or.inl ⟨rfl, rfl⟩) (by decide)).1 rfl).1,
   ((resolveURL_parsed_path_absolute _ "/foo".toList "foo.md".toList "/foo".toList
      { Path := "/foo".toList } (by decide) (Or.inl ⟨rfl, rfl⟩) (by decide)).2
        (by decide)).trans (by decide)⟩

/-! ## Theorems: `Check` -/

/-- C6, as the code has it: with `localOnly` set, a reference that resolves
to a remote target which the excluded pattern (if there is one) does not
match is skipped: `Check` returns `errSkipped`, which is neither `nil` nor
another error, and calls neither the limiter nor the network. -/
theorem Check_localOnly_skipped (c : urlChecker) (env : Env) (u f t : Str)
    (hlocalOnly : c.localOnly = true) (hres : c.resolveURL u f = (t, false, none))
    (hpat : ∀ r, c.excludedPattern = some r → r.MatchString t = false) :
    c.Check env u f = (some errSkipped, []) ∧ (c.Check env u f).1 ≠ none := by
  have h : c.Check env u f = (some errSkipped, []) := by
    unfold urlChecker.Check
    rw [hres]
    cases hp : c.excludedPattern with
    | none => simp [hlocalOnly]
    | some r => simp [hpat r hp, hlocalOnly]
  exact ⟨h, by rw [h]; simp⟩

/-- C6 at the checker of the tests: with `localOnly` set and no excluded
pattern, `https://www.google.com` is skipped. -/
theorem Check_localOnly_skipped_witness :
    (newURLChecker 0 [] none (newSemaphore 1024) true).Check (Env.answering 200 none)
        "https://www.google.com".toList "README.md".toList = (some errSkipped, []) :=
  (Check_localOnly_skipped _ _ "https://www.google.com".toList "README.md".toList
    "https://www.google.com".toList rfl (by decide) (by intro r h; cases h)).1

/-- C6 as stated fails: with `localOnly` set, the remote reference
`https://www.google.com` is not skipped by a checker whose excluded pattern
matches it: `Check` returns `nil`. -/
theorem Check_localOnly_excluded_not_skipped :
    (newURLChecker 0 [] (some (Regexp.exactly "https://www.google.com".toList))
        (newSemaphore 1024) true).localOnly = true ∧
    (newURLChecker 0 [] (some (Regexp.exactly "https://www.google.com".toList))
        (newSemaphore 1024) true).resolveURL "https://www.google.com".toList "README.md".toList
      = ("https://www.google.com".toList, false, none) ∧
    (newURLChecker 0 [] (some (Regexp.exactly "https://www.google.com".toList))
        (newSemaphore 1024) true).Check Env.offline "https://www.google.com".toList
        "README.md".toList = (none, []) ∧
    (none : Option error) ≠ some errSkipped := by
  decide

/-- C7: when the resolution of a reference succeeds with a target that the
excluded pattern matches, `Check` returns `nil` and makes no call at all (no
`os.Stat`, no fetch, no limiter operation), whatever the world, the kind of
the target and the other settings of the checker are.  The pattern is
applied to the resolved target `t`. -/
theorem Check_excluded (c : urlChecker) (env : Env) (u f t : Str) (isLocal : Bool) (r : Regexp)
    (hres : c.resolveURL u f = (t, isLocal, none)) (hpat : c.excludedPattern = some r)
    (hmatch : r.MatchString t = true) :
    c.Check env u f = (none, []) := by
  unfold urlChecker.Check
  rw [hres]
  simp [hpat, hmatch]

/-- C7 at a reference whose target differs from it: with the document root
`foo`, the reference `/x` resolves to `foo/x`; a pattern that matches `foo/x`
only makes `Check` return `nil` in a world without files, and a pattern that
matches the raw reference `/x` only does not. -/
theorem Check_excluded_witness :
    (newURLChecker 0 "foo".toList (some (Regexp.exactly "foo/x".toList)) (newSemaphore 1024)
        false).Check Env.offline "/x".toList "foo.md".toList = (none, []) ∧
    (newURLChecker 0 "foo".toList (some (Regexp.exactly "/x".toList)) (newSemaphore 1024)
        false).Check Env.offline "/x".toList "foo.md".toList
      = (some (error.external "no such file or directory".toList),
          [Effect.Stat "foo/x".toList]) :=
  ⟨Check_excluded _ Env.offline "/x".toList "foo.md".toList "foo/x".toList true
      (Regexp.exactly "foo/x".toList) (by decide) rfl (by decide),
   by decide⟩

/-- C8: for a reference that resolves to a remote target `t` which is not
excluded, with `localOnly` unset, the result of `Check` is this function of
the status code and the error of the fetch (`fasthttp.Get` when the timeout
is zero, `fasthttp.GetTimeout` otherwise): with a status code of 400 or more,
the error `<status text> (HTTP error <code>)`, whatever the error of the
fetch; below 400, `nil` when the fetch failed with `ErrSmallBuffer`, and the
error of the fetch itself otherwise, so `nil` when it is `nil`. -/
theorem Check_remote_result (c : urlChecker) (env : Env) (u f t : Str)
    (hres : c.resolveURL u f = (t, false, none))
    (hpat : ∀ r, c.excludedPattern = some r → r.MatchString t = false)
    (hlocalOnly : c.localOnly = false) (sc : Int) (err : Option error)
    (hfetch : (if c.timeout = 0 then env.Get t else env.GetTimeout t c.timeout) = (sc, err)) :
    (400 ≤ sc → (c.Check env u f).1 = some (error.errorString
        (env.StatusText sc ++ " (HTTP error ".toList ++ fmtInt sc ++ ")".toList))) ∧
    (sc < 400 → ∀ reason, err = some (error.ErrSmallBuffer reason) →
        (c.Check env u f).1 = none) ∧
    (sc < 400 → (∀ reason, err ≠ some (error.ErrSmallBuffer reason)) →
        (c.Check env u f).1 = err) ∧
    (sc < 400 → err = none → (c.Check env u f).1 = none) := by
  have hex : (match c.excludedPattern with
      | some r => r.MatchString t
      | none => false) = false := by
    cases hp : c.excludedPattern with
    | none => rfl
    | some r => simpa using hpat r hp
  have hf1 : (if c.timeout = 0 then (env.Get t, Effect.Get t)
      else (env.GetTimeout t c.timeout, Effect.GetTimeout t c.timeout)).1 = (sc, err) := by
    rw [← hfetch]
    split_ifs <;> rfl
  have key : ∃ cls : Option error → Option error,
      (∀ reason, cls (some (error.ErrSmallBuffer reason)) = none) ∧
      (∀ e, (∀ reason, e ≠ some (error.ErrSmallBuffer reason)) → cls e = e) ∧
      (c.Check env u f).1 =
        if sc ≥ StatusBadRequest then
          some (error.errorString
            (env.StatusText sc ++ " (HTTP error ".toList ++ fmtInt sc ++ ")".toList))
        else cls err := by
    refine ⟨fun e => match e with
      | some (error.ErrSmallBuffer _) => none
      | _ => e, fun _ => rfl, ?_, ?_⟩
    · intro e he
      rcases e with _ | e
      · rfl
      · cases e <;> first | rfl | exact absurd rfl (he _)
    · unfold urlChecker.Check
      rw [hres]
      simp only [hex, hlocalOnly, Bool.false_eq_true, if_false, hf1]
      by_cases hsc : sc ≥ StatusBadRequest
      · simp only [hsc, if_true]
      · simp only [hsc, if_false]
        rcases err with _ | e
        · rfl
        · cases e <;> rfl
  obtain ⟨cls, hsmall, hother, key⟩ := key
  have h400 : StatusBadRequest = 400 := rfl
  refine ⟨?_, ?_, ?_, ?_⟩
  · intro h
    rw [key, h400, if_pos h]
  · intro h reason he
    rw [key, h400, if_neg (not_le.mpr h), he, hsmall]
  · intro h he
    rw [key, h400, if_neg (not_le.mpr h), hother err he]
  · intro h he
    rw [key, h400, if_neg (not_le.mpr h), he, hother none (by intro r hr; cases hr)]

/-- C8 at a server that answers 404, one that answers 200, and one whose
header does not fit the buffer. -/
theorem Check_remote_result_witness :
    (newURLChecker 0 [] none (newSemaphore 1024) false).Check (Env.answering 404 none)
        "http://www.google.com/README-I-DONT-EXIST.md".toList "README.md".toList
      = (some (error.errorString "Not Found (HTTP error 404)".toList),
          [Effect.Request, Effect.Get "http://www.google.com/README-I-DONT-EXIST.md".toList,
            Effect.Release]) ∧
    ((newURLChecker 0 [] none (newSemaphore 1024) false).Check (Env.answering 404 none)
        "http://www.google.com/README-I-DONT-EXIST.md".toList "README.md".toList).1
      = some (error.errorString ((Env.answering 404 none).StatusText 404 ++
          " (HTTP error ".toList ++ fmtInt 404 ++ ")".toList)) ∧
    ((newURLChecker 30 [] none (newSemaphore 1024) false).Check (Env.answering 200 none)
        "https://google.com".toList "README.md".toList).1 = none ∧
    ((newURLChecker 0 [] none (newSemaphore 1024) false).Check
        (Env.answering 0 (some (error.ErrSmallBuffer "small read buffer".toList)))
        "https://google.com".toList "README.md".toList).1 = none :=
  ⟨by decide,
   (Check_remote_result (newURLChecker 0 [] none (newSemaphore 1024) false)
      (Env.answering 404 none)
      "http://www.google.com/README-I-DONT-EXIST.md".toList "README.md".toList
      "http://www.google.com/README-I-DONT-EXIST.md".toList (by decide)
      (by intro r h; cases h) rfl 404 none rfl).1 (by decide),
   (Check_remote_result (newURLChecker 30 [] none (newSemaphore 1024) false)
      (Env.answering 200 none) "https://google.com".toList
      "README.md".toList "https://google.com".toList (by decide)
      (by intro r h; cases h) rfl 200 none rfl).2.2.2 (by decide) rfl,
   (Check_remote_result (newURLChecker 0 [] none (newSemaphore 1024) false)
      (Env.answering 0 (some (error.ErrSmallBuffer "small read buffer".toList)))
      "https://google.com".toList "README.md".toList "https://google.com".toList (by decide)
      (by intro r h; cases h) rfl 0 _ rfl).2.1 (by decide) _ rfl⟩

/-- C9: the limiter operations of a run of `Check`.  Either the run makes no
limiter operation, and this is so exactly when the resolution fails, the
target is excluded, the target is local, or `localOnly` is set; or its calls
are one `Request`, the fetch of the target, and one `Release`, in this order,
whatever the fetch returns.  In both cases a run that starts with `held` slots
taken (and, when it asks for a slot, finds one free) ends with `held` slots
taken; a run that asks for a slot and finds none free does not get past its
`Request`. -/
theorem Check_limiter (c : urlChecker) (env : Env) (u f : Str) :
    ((limiterOps (c.Check env u f).2 = [] ∧
        ∀ held, runLimiter c.semaphore (c.Check env u f).2 held = some held) ∨
     (∃ fetch, (fetch = Effect.Get (c.resolveURL u f).1 ∨
          fetch = Effect.GetTimeout (c.resolveURL u f).1 c.timeout) ∧
        (c.Check env u f).2 = [Effect.Request, fetch, Effect.Release] ∧
        limiterOps (c.Check env u f).2 = [Effect.Request, Effect.Release] ∧
        (∀ held, held < c.semaphore.capacity →
          runLimiter c.semaphore (c.Check env u f).2 held = some held) ∧
        (∀ held, c.semaphore.capacity ≤ held →
          runLimiter c.semaphore (c.Check env u f).2 held = none))) ∧
    (limiterOps (c.Check env u f).2 = [] ↔
      ((c.resolveURL u f).2.2 ≠ none ∨
       (∃ r, c.excludedPattern = some r ∧ r.MatchString (c.resolveURL u f).1 = true) ∨
       (c.resolveURL u f).2.1 = true ∨ c.localOnly = true)) := by
  have hrun : ∀ fetch, (fetch = Effect.Get (c.resolveURL u f).1 ∨
        fetch = Effect.GetTimeout (c.resolveURL u f).1 c.timeout) →
      ∀ held, held < c.semaphore.capacity →
        runLimiter c.semaphore [Effect.Request, fetch, Effect.Release] held = some held := by
    intro fetch hf held hlt
    rcases hf with rfl | rfl <;>
      simp [runLimiter, semaphore.Request, semaphore.Release, hlt]
  have hblocked : ∀ fetch held, c.semaphore.capacity ≤ held →
      runLimiter c.semaphore [Effect.Request, fetch, Effect.Release] held = none := by
    intro fetch held hle
    simp [runLimiter, semaphore.Request, Nat.not_lt.mpr hle]
  have hops : ∀ fetch, (fetch = Effect.Get (c.resolveURL u f).1 ∨
        fetch = Effect.GetTimeout (c.resolveURL u f).1 c.timeout) →
      limiterOps [Effect.Request, fetch, Effect.Release] = [Effect.Request, Effect.Release] := by
    intro fetch hf
    rcases hf with rfl | rfl <;> simp [limiterOps, List.filter]
  rcases hres : c.resolveURL u f with ⟨t, isLocal, e⟩
  rw [hres] at hrun hops
  cases e with
  | some err =>
    have h : c.Check env u f = (some err, []) := by
      unfold urlChecker.Check; rw [hres]
    rw [h]
    simp [limiterOps, runLimiter]
  | none =>
    by_cases hex : (match c.excludedPattern with
        | some r => r.MatchString t
        | none => false) = true
    · have h : c.Check env u f = (none, []) := by
        unfold urlChecker.Check; rw [hres]; simp only [hex, if_true]
      have hex2 : ∃ r, c.excludedPattern = some r ∧ r.MatchString t = true := by
        cases hp : c.excludedPattern with
        | none => rw [hp] at hex; cases hex
        | some r => rw [hp] at hex; exact ⟨r, rfl, hex⟩
      rw [h]
      simp [limiterOps, runLimiter, hex2]
    · have hex2 : ¬ ∃ r, c.excludedPattern = some r ∧ r.MatchString t = true := by
        rintro ⟨r, hp, hm⟩
        rw [hp] at hex
        exact hex hm
      replace hex := Bool.eq_false_iff.mpr hex
      cases isLocal with
      | true =>
        have h : c.Check env u f = (env.Stat t, [Effect.Stat t]) := by
          unfold urlChecker.Check; rw [hres]
          simp only [hex, Bool.false_eq_true, if_false, if_true]
        rw [h]
        simp [limiterOps, runLimiter, List.filter]
      | false =>
        by_cases hlo : c.localOnly = true
        · have h : c.Check env u f = (some errSkipped, []) := by
            unfold urlChecker.Check; rw [hres]
            simp only [hex, hlo, if_false, if_true, Bool.false_eq_true]
          rw [h]
          simp [limiterOps, runLimiter, hlo]
        · have h : ∃ fetch, (fetch = Effect.Get t ∨ fetch = Effect.GetTimeout t c.timeout) ∧
              (c.Check env u f).2 = [Effect.Request, fetch, Effect.Release] := by
            unfold urlChecker.Check; rw [hres]
            simp only [hex, hlo, if_false, Bool.false_eq_true]
            by_cases ht : c.timeout = 0
            · refine ⟨Effect.Get t, Or.inl rfl, ?_⟩
              simp only [ht, if_true]
              split
              · rfl
              · split <;> rfl
            · refine ⟨Effect.GetTimeout t c.timeout, Or.inr rfl, ?_⟩
              simp only [ht, if_false]
              split
              · rfl
              · split <;> rfl
          obtain ⟨fetch, hf, htr⟩ := h
          rw [htr]
          refine ⟨Or.inr ⟨fetch, hf, rfl, hops fetch hf, hrun fetch hf, hblocked fetch⟩, ?_⟩
          rw [hops fetch hf]
          simp [hex2, hlo]

/-! ## Theorems: `CheckMany` -/

/-- Replacing one element of a list changes the sum of a measure by the
difference of the measures of the two elements. -/
theorem sum_map_set (w : Task → Nat) (b : Task) :
    ∀ (l : List Task) (i : Nat) (a : Task), l.get? i = some a →
      ((l.set i b).map w).sum + w a = (l.map w).sum + w b
  | [], _, _, h => by simp at h
  | x :: l, 0, a, h => by
    simp only [List.get?_cons_zero, Option.some.injEq] at h
    subst h
    simp only [List.set_cons_zero, List.map_cons, List.sum_cons]
    omega
  | x :: l, i + 1, a, h => by
    simp only [List.get?_cons_succ] at h
    have ih := sum_map_set w b l i a h
    simp only [List.set_cons_succ, List.map_cons, List.sum_cons]
    omega

/-- A goroutine that sends its result leaves the goroutines that have not
sent yet. -/
theorem unsent_set_finishing (s : Str) :
    ∀ (l : List Task) (i : Nat), l.get? i = some (Task.sending s) →
      (l.filterMap Task.unsent).Perm
        (s :: (l.set i (Task.finishing s)).filterMap Task.unsent)
  | [], _, h => by simp at h
  | x :: l, 0, h => by
    simp only [List.get?_cons_zero, Option.some.injEq] at h
    subst h
    simp [List.filterMap_cons, Task.unsent]
  | x :: l, i + 1, h => by
    simp only [List.get?_cons_succ] at h
    have ih := unsent_set_finishing s l i h
    simp only [List.set_cons_succ, List.filterMap_cons]
    cases hx : x.unsent with
    | none => simpa using ih
    | some y =>
      simp only
      exact (List.Perm.cons y ih).trans (List.Perm.swap s y _)

/-- A goroutine that ends was not among those that have not sent yet. -/
theorem unsent_set_done (s : Str) :
    ∀ (l : List Task) (i : Nat), l.get? i = some (Task.finishing s) →
      (l.set i (Task.done s)).filterMap Task.unsent = l.filterMap Task.unsent
  | [], _, h => by simp at h
  | x :: l, 0, h => by
    simp only [List.get?_cons_zero, Option.some.injEq] at h
    subst h
    simp [List.filterMap_cons, Task.unsent]
  | x :: l, i + 1, h => by
    simp only [List.get?_cons_succ] at h
    have ih := unsent_set_done s l i h
    simp only [List.set_cons_succ, List.filterMap_cons, ih]

/-- A goroutine of the list counts in the number of those that have not
called `wg.Done()`. -/
theorem live_le_sum :
    ∀ (l : List Task) (i : Nat) (a : Task), l.get? i = some a →
      a.live ≤ (l.map Task.live).sum
  | [], _, _, h => by simp at h
  | x :: l, 0, a, h => by
    simp only [List.get?_cons_zero, Option.some.injEq] at h
    subst h
    simp
  | x :: l, i + 1, a, h => by
    simp only [List.get?_cons_succ] at h
    have ih := live_le_sum l i a h
    simp only [List.map_cons, List.sum_cons]
    omega

/-- When no goroutine is left that has not called `wg.Done()`, none is left
that has not sent, and none has a step to take. -/
theorem all_done_of_live_zero :
    ∀ (l : List Task), (l.map Task.live).sum = 0 →
      l.filterMap Task.unsent = [] ∧ (l.map Task.stepsLeft).sum = 0
  | [], _ => by simp
  | x :: l, h => by
    simp only [List.map_cons, List.sum_cons] at h
    have ih := all_done_of_live_zero l (by omega)
    cases x with
    | sending s => simp [Task.live] at h
    | finishing s => simp [Task.live] at h
    | done s => simpa [List.filterMap_cons, Task.unsent, Task.stepsLeft] using ih

/-- When some goroutine has not called `wg.Done()`, one of them can be
named: it is about to send or about to call `wg.Done()`. -/
theorem exists_live :
    ∀ (l : List Task), 0 < (l.map Task.live).sum →
      ∃ i s, l.get? i = some (Task.sending s) ∨ l.get? i = some (Task.finishing s)
  | [], h => by simp at h
  | x :: l, h => by
    cases x with
    | sending s => exact ⟨0, s, Or.inl rfl⟩
    | finishing s => exact ⟨0, s, Or.inr rfl⟩
    | done s =>
      simp only [List.map_cons, List.sum_cons, Task.live, Nat.zero_add] at h
      obtain ⟨i, s', hi⟩ := exists_live l h
      exact ⟨i + 1, s', by simpa using hi⟩

/-- The invariant holds when `CheckMany` is entered. -/
theorem inv_init (check : Str → Option error) (us : List Str) : Inv check us (State.init us) where
  sound := rfl
  counter := rfl
  waited := by intro h; rcases h with h | h <;> cases h
  closing := by simp [State.init]
  started := by simp [State.init, Main.left]
  owed := by simp [State.init, Main.left]

/-- Every step keeps the invariant and is one of the steps counted by
`State.stepsLeft`. -/
theorem inv_step {check : Str → Option error} {us : List Str} {st st' : State} {t : Turn}
    (inv : Inv check us st) (h : step check st t = some st') :
    Inv check us st' ∧ st'.stepsLeft + 1 = st.stepsLeft := by
  obtain ⟨main, tasks, wg, rc, closed, panicked⟩ := st
  obtain ⟨hsound, hcounter, hwaited, hclosing, hstarted, howed⟩ := inv
  simp only at hsound hcounter hwaited hclosing hstarted howed
  subst hsound
  cases t with
  | main =>
    cases main with
    | loop us' =>
      cases us' with
      | nil =>
        by_cases hwg : wg = 0
        · simp only [step, Bool.false_eq_true, if_false, hwg, if_true, Option.some.injEq] at h
          subst h
          subst hwg
          refine ⟨⟨rfl, ?_, fun _ => rfl, ?_, ?_, ?_⟩, ?_⟩
          · simpa [Main.added] using hcounter
          · simpa using hclosing
          · simpa [Main.left] using hstarted
          · simpa [Main.left] using howed
          · simp [State.stepsLeft, Main.stepsLeft, Main.left]
            omega
        · simp [step, hwg] at h
      | cons s rest =>
        simp only [step, Bool.false_eq_true, if_false, Option.some.injEq] at h
        subst h
        refine ⟨⟨rfl, ?_, ?_, ?_, ?_, ?_⟩, ?_⟩
        · simp only [Main.added] at hcounter ⊢
          omega
        · intro hm
          rcases hm with hm | hm <;> cases hm
        · simpa using hclosing
        · simpa [Main.left] using hstarted
        · simpa [Main.left] using howed
        · simp [State.stepsLeft, Main.stepsLeft, Main.left]
          omega
    | spawn s rest =>
      simp only [step, Bool.false_eq_true, if_false, Option.some.injEq] at h
      subst h
      refine ⟨⟨rfl, ?_, ?_, ?_, ?_, ?_⟩, ?_⟩
      · simp only [Main.added, List.map_append, List.sum_append, List.map_cons, List.map_nil,
          List.sum_cons, List.sum_nil, Task.live] at hcounter ⊢
        omega
      · intro hm
        rcases hm with hm | hm <;> cases hm
      · simpa using hclosing
      · simp only [Main.left, List.length_append, List.length_cons, List.length_nil] at hstarted ⊢
        omega
      · simpa [Main.left, List.filterMap_append, Task.unsent] using howed
      · simp [State.stepsLeft, Main.stepsLeft, Main.left, Task.stepsLeft]
        omega
    | close =>
      have hc : closed = false := by
        cases closed with
        | false => rfl
        | true => exact absurd (hclosing.mp rfl) (by simp)
      subst hc
      simp only [step, Bool.false_eq_true, if_false, Option.some.injEq] at h
      subst h
      have hwg : wg = 0 := hwaited (Or.inl rfl)
      refine ⟨⟨rfl, ?_, fun _ => hwg, ?_, ?_, ?_⟩, ?_⟩
      · simpa [Main.added] using hcounter
      · simp
      · simpa [Main.left] using hstarted
      · simpa [Main.left] using howed
      · simp [State.stepsLeft, Main.stepsLeft, Main.left]
        omega
    | returned => simp [step] at h
  | task i =>
    simp only [step, Bool.false_eq_true, if_false] at h
    cases hget : tasks.get? i with
    | none => rw [hget] at h; cases h
    | some a =>
      rw [hget] at h
      have hlive := live_le_sum tasks i a hget
      cases a with
      | sending s =>
        have hc : closed = false := by
          cases closed with
          | false => rfl
          | true =>
            have hm : main = Main.returned := hclosing.mp rfl
            have hw : wg = 0 := hwaited (Or.inr hm)
            simp only [Task.live] at hlive
            omega
        subst hc
        simp only [Bool.false_eq_true, if_false, Option.some.injEq] at h
        subst h
        have hsum := sum_map_set Task.live (Task.finishing s) tasks i _ hget
        have hsteps := sum_map_set Task.stepsLeft (Task.finishing s) tasks i _ hget
        have hperm := unsent_set_finishing s tasks i hget
        simp only [Task.live, Task.stepsLeft] at hsum hsteps
        refine ⟨⟨rfl, ?_, ?_, ?_, ?_, ?_⟩, ?_⟩
        · simp only at hcounter ⊢
          omega
        · exact hwaited
        · exact hclosing
        · simpa using hstarted
        · refine List.Perm.trans ?_ howed
          simp only [List.map_append, List.append_assoc]
          refine List.Perm.append_left rc ?_
          have h1 := (hperm.map (fun s => (⟨s, check s⟩ : urlResult))).append_right
            (main.left.map (fun s => (⟨s, check s⟩ : urlResult)))
          simpa using h1.symm
        · simp only [State.stepsLeft]
          omega
      | finishing s =>
        have hw : wg ≠ 0 := by
          simp only [Task.live] at hlive
          omega
        simp only [hw, if_false, Option.some.injEq] at h
        subst h
        have hsum := sum_map_set Task.live (Task.done s) tasks i _ hget
        have hsteps := sum_map_set Task.stepsLeft (Task.done s) tasks i _ hget
        have hunsent := unsent_set_done s tasks i hget
        simp only [Task.live, Task.stepsLeft] at hsum hsteps
        refine ⟨⟨rfl, ?_, ?_, ?_, ?_, ?_⟩, ?_⟩
        · simp only at hcounter ⊢
          omega
        · intro hm
          exact absurd (hwaited hm) hw
        · exact hclosing
        · simpa using hstarted
        · simpa [hunsent] using howed
        · simp only [State.stepsLeft]
          omega
      | done s => cases h

/-- Every run keeps the invariant, and its steps are counted by
`State.stepsLeft`. -/
theorem inv_run {check : Str → Option error} {us : List Str} :
    ∀ (sched : List Turn) {st st' : State}, Inv check us st →
      run check sched st = some st' →
      Inv check us st' ∧ sched.length + st'.stepsLeft = st.stepsLeft
  | [], st, st', inv, h => by
    simp only [run, Option.some.injEq] at h
    subst h
    exact ⟨inv, by simp⟩
  | t :: ts, st, st', inv, h => by
    simp only [run] at h
    cases hs : step check st t with
    | none => simp [hs] at h
    | some st1 =>
      rw [hs] at h
      obtain ⟨inv1, h1⟩ := inv_step inv hs
      obtain ⟨inv2, h2⟩ := inv_run ts inv1 h
      refine ⟨inv2, ?_⟩
      simp only [List.length_cons]
      omega

/-- As long as `CheckMany` has not returned, someone can move. -/
theorem inv_progress {check : Str → Option error} {us : List Str} {st : State}
    (inv : Inv check us st) (h : st.main ≠ Main.returned) :
    ∃ t st', step check st t = some st' := by
  obtain ⟨main, tasks, wg, rc, closed, panicked⟩ := st
  obtain ⟨hsound, hcounter, hwaited, hclosing, hstarted, howed⟩ := inv
  simp only at hsound hcounter hwaited hclosing hstarted howed h
  subst hsound
  cases main with
  | loop us' =>
    cases us' with
    | cons s rest => exact ⟨Turn.main, _, rfl⟩
    | nil =>
      by_cases hwg : wg = 0
      · subst hwg
        exact ⟨Turn.main, _, rfl⟩
      · have hpos : 0 < (tasks.map Task.live).sum := by
          simp only [Main.added] at hcounter
          omega
        have hc : closed = false := by
          cases closed with
          | false => rfl
          | true => exact absurd (hclosing.mp rfl) (by simp)
        subst hc
        obtain ⟨i, s, hi | hi⟩ := exists_live tasks hpos
        · refine ⟨Turn.task i, ?_⟩
          simp only [step, Bool.false_eq_true, if_false, hi]
          exact ⟨_, rfl⟩
        · refine ⟨Turn.task i, ?_⟩
          simp only [step, Bool.false_eq_true, if_false, hi, hwg]
          exact ⟨_, rfl⟩
  | spawn s rest => exact ⟨Turn.main, _, rfl⟩
  | close =>
    cases closed with
    | false => exact ⟨Turn.main, _, rfl⟩
    | true => exact ⟨Turn.main, _, rfl⟩
  | returned => exact absurd rfl h

/-- A run over a schedule in two parts is the run over the second part from
the state the first part reaches. -/
theorem run_append (check : Str → Option error) :
    ∀ (ts more : List Turn) (st : State),
      run check (ts ++ more) st = (run check ts st).bind (run check more)
  | [], _, _ => rfl
  | t :: ts, more, st => by
    simp only [List.cons_append, run]
    cases step check st t with
    | none => rfl
    | some st1 => exact run_append check ts more st1

/-- From every state of a run, some schedule leads `CheckMany` to its return. -/
theorem inv_completes {check : Str → Option error} {us : List Str} :
    ∀ (n : Nat) (st : State), st.stepsLeft = n → Inv check us st →
      ∃ more final, run check more st = some final ∧ final.main = Main.returned
  | 0, st, hn, _ => by
    refine ⟨[], st, rfl, ?_⟩
    cases hm : st.main with
    | returned => rfl
    | loop us' => simp [State.stepsLeft, Main.stepsLeft, hm] at hn
    | spawn s rest => simp [State.stepsLeft, Main.stepsLeft, hm] at hn
    | close => simp [State.stepsLeft, Main.stepsLeft, hm] at hn
  | n + 1, st, hn, inv => by
    by_cases hm : st.main = Main.returned
    · exact ⟨[], st, rfl, hm⟩
    · obtain ⟨t, st1, hs⟩ := inv_progress inv hm
      obtain ⟨inv1, h1⟩ := inv_step inv hs
      obtain ⟨more, final, hr, hf⟩ := inv_completes n st1 (by omega) inv1
      exact ⟨t :: more, final, by simp [run, hs, hr], hf⟩

/-- C10: every run of `CheckMany` over the references `us`, under any
schedule of its body and its goroutines.  At each point of the run: no panic
has occurred; the entries written to the channel are among the entries owed,
one `{reference, Check(reference, f)}` per reference, none written twice; the
channel is closed exactly when `CheckMany` has returned, and then the entries
written are the entries owed, as a multiset, and there are `len(us)` of them;
as long as `CheckMany` has not returned someone can move, and the run can be
continued to its return; the steps taken and those left add up to four per
reference and two, so `CheckMany` returns after that many steps under every
schedule; with no reference, nothing is ever written and no goroutine started,
and the channel is closed after the two steps `wg.Wait()` and `close(rc)`. -/
theorem CheckMany_stream (c : urlChecker) (env : Env) (us : List Str) (f : Str)
    (sched : List Turn) (st : State) (h : c.CheckMany env us f sched = some st) :
    st.panicked = false ∧
    (∃ pending, (st.rc ++ pending).Perm (c.results env us f)) ∧
    (st.closed = true ↔ st.main = Main.returned) ∧
    (st.closed = true → st.rc.Perm (c.results env us f) ∧ st.rc.length = us.length) ∧
    (st.main ≠ Main.returned →
      ∃ t st', step (fun s => (c.Check env s f).1) st t = some st') ∧
    (∃ more final, c.CheckMany env us f (sched ++ more) = some final ∧
      final.closed = true) ∧
    sched.length + st.stepsLeft = 4 * us.length + 2 ∧
    (st.main = Main.returned ↔ sched.length = 4 * us.length + 2) ∧
    (us = [] → st.rc = [] ∧ st.tasks = [] ∧ sched.length ≤ 2) := by
  unfold urlChecker.CheckMany at h
  obtain ⟨inv, hsteps⟩ := inv_run sched (inv_init _ us) h
  have hinit : (State.init us).stepsLeft = 4 * us.length + 2 := by
    simp [State.stepsLeft, State.init, Main.stepsLeft, Main.left]
    omega
  rw [hinit] at hsteps
  have hreturned : st.main = Main.returned → st.stepsLeft = 0 := by
    intro hm
    have hw := inv.waited (Or.inr hm)
    have hc := inv.counter
    have hz := (all_done_of_live_zero st.tasks (by omega)).2
    simp [State.stepsLeft, hm, Main.stepsLeft, Main.left, hz]
  have hleft : st.stepsLeft = 0 → st.main = Main.returned := by
    intro h0
    cases hm : st.main with
    | returned => rfl
    | loop us' => simp [State.stepsLeft, Main.stepsLeft, hm] at h0
    | spawn s rest => simp [State.stepsLeft, Main.stepsLeft, hm] at h0
    | close => simp [State.stepsLeft, Main.stepsLeft, hm] at h0
  refine ⟨inv.sound, ⟨_, inv.owed⟩, inv.closing, ?_, inv_progress inv, ?_, hsteps, ?_, ?_⟩
  · intro hclosed
    have hm := inv.closing.mp hclosed
    have hw := inv.waited (Or.inr hm)
    have hc := inv.counter
    have hz := (all_done_of_live_zero st.tasks (by omega)).1
    have hp := inv.owed
    simp only [hz, hm, Main.left, List.append_nil, List.map_nil] at hp
    refine ⟨hp, ?_⟩
    have hl := hp.length_eq
    simpa [urlChecker.results] using hl
  · obtain ⟨more, final, hr, hf⟩ := inv_completes st.stepsLeft st rfl inv
    refine ⟨more, final, ?_, ?_⟩
    · unfold urlChecker.CheckMany
      rw [run_append, h]
      exact hr
    · have inv2 := (inv_run more inv hr).1
      exact inv2.closing.mpr hf
  · constructor
    · intro hm
      have := hreturned hm
      omega
    · intro hlen
      exact hleft (by omega)
  · intro hus
    subst hus
    have hp := inv.owed
    have hst := inv.started
    simp only [List.map_nil, List.length_nil] at hp hst hsteps
    have hrc : st.rc = [] := by
      have := hp.length_eq
      simp only [List.length_append, List.length_nil] at this
      exact List.length_eq_zero.mp (by omega)
    exact ⟨hrc, List.length_eq_zero.mp (by omega), by omega⟩

/-- C10 at the references of the tests, `https://google.com` and `README.md`
found in `README.md`, under a schedule where the second goroutine writes
first: both entries are written, then the channel is closed; and with no
reference the channel is closed by the first two steps. -/
theorem CheckMany_stream_witness :
    ((newURLChecker 0 [] none (newSemaphore 1024) false).CheckMany (Env.answering 200 none)
        ["https://google.com".toList, "README.md".toList] "README.md".toList
        [Turn.main, Turn.main, Turn.main, Turn.main, Turn.task 1, Turn.task 0, Turn.task 0,
          Turn.task 1, Turn.main, Turn.main]).map (fun st => (st.rc, st.closed))
      = some ([⟨"README.md".toList, none⟩, ⟨"https://google.com".toList, none⟩], true) ∧
    ((newURLChecker 0 [] none (newSemaphore 1024) false).CheckMany (Env.answering 200 none)
        [] "README.md".toList [Turn.main, Turn.main]).map (fun st => (st.rc, st.closed))
      = some ([], true) ∧
    ([(⟨"README.md".toList, none⟩ : urlResult), ⟨"https://google.com".toList, none⟩]).length
      = 2 :=
  ⟨by decide, by decide,
   ((CheckMany_stream (newURLChecker 0 [] none (newSemaphore 1024) false)
      (Env.answering 200 none) ["https://google.com".toList, "README.md".toList]
      "README.md".toList
      [Turn.main, Turn.main, Turn.main, Turn.main, Turn.task 1, Turn.task 0, Turn.task 0,
        Turn.task 1, Turn.main, Turn.main]
      ⟨Main.returned, [Task.done "https://google.com".toList, Task.done "README.md".toList], 0,
        [⟨"README.md".toList, none⟩, ⟨"https://google.com".toList, none⟩], true, false⟩
      (by decide)).2.2.2.1 rfl).2⟩

end Liche
